import Mathlib

/-!
Verification of the LMSR prediction-market bot engine.

The definitions below are a shallow embedding of the market-maker and
ledger engine of the repository (files `LMSR_v3.py`, `LMSR_clean.py`,
`config.py`).  Python floats are modelled as real numbers, the SQLite
tables as a record of maps and lists, and each bot operation
(`BuyModal.on_submit`, `SellModal.on_submit`, `ProposeModal.on_submit`,
`ApprovalView.deny`, the `/resolve` command and the expired-market scan)
as a pure state-transition function on that record.
-/

namespace PM

/-! ## Configuration constants, from `config.py` -/

noncomputable def LMSR_B : ℝ := 300

noncomputable def TRADING_FEE : ℝ := 0.05

noncomputable def PROPOSAL_COST : ℝ := 100

noncomputable def STARTING_BALANCE : ℝ := 1000

def AUTO_RESOLVE_ENABLED : Bool := true

noncomputable def AUTO_RESOLVE_THRESHOLD : ℝ := 70

/-! ## LMSR math engine, from `LMSR_v3.py` lines 88-131 -/

/-- `get_lmsr_cost(q1, q2)`: the LMSR cost function with the
log-sum-exp shift used by the source for overflow safety. -/
noncomputable def get_lmsr_cost (q1 q2 : ℝ) : ℝ :=
  let max_val := max q1 q2
  max_val + LMSR_B * Real.log
    (Real.exp ((q1 - max_val) / LMSR_B) + Real.exp ((q2 - max_val) / LMSR_B))

/-- `get_prob(q_yes, q_no)`: instantaneous YES price, clamped for
`|diff| > 100` exactly as in the source. -/
noncomputable def get_prob (q_yes q_no : ℝ) : ℝ :=
  if (q_no - q_yes) / LMSR_B > 100 then 0
  else if (q_no - q_yes) / LMSR_B < -100 then 1
  else 1 / (1 + Real.exp ((q_no - q_yes) / LMSR_B))

/-- `calculate_shares_out_lmsr(q_target, q_other, amount_invested)`:
buy-side inversion of the cost function.  Returns
`(shares_out, amount_net)`; when the logarithm argument is non-positive
it returns the source's fallback `(0.0, amount_net)`. -/
noncomputable def calculate_shares_out_lmsr (q_target q_other amount_invested : ℝ) : ℝ × ℝ :=
  let amount_net := amount_invested * (1 - TRADING_FEE)
  let new_cost := get_lmsr_cost q_target q_other + amount_net
  let inner := Real.exp (new_cost / LMSR_B) - Real.exp (q_other / LMSR_B)
  if inner ≤ 0 then (0, amount_net)
  else (LMSR_B * Real.log inner - q_target, amount_net)

/-- The two `ValueError`s raised by `calculate_cash_out_lmsr`. -/
inductive SellCalcErr
  | tooManyShares
  | negativeShares
deriving DecidableEq

/-- `calculate_cash_out_lmsr(q_target, q_other, shares_to_sell)`:
sell-side payout.  Returns `(net_payout, fee, gross_payout)` or the
`ValueError` raised by the source's guards. -/
noncomputable def calculate_cash_out_lmsr (q_target q_other shares_to_sell : ℝ) :
    Except SellCalcErr (ℝ × ℝ × ℝ) :=
  if shares_to_sell > q_target then .error .tooManyShares
  else if shares_to_sell < 0 then .error .negativeShares
  else
    let current_cost := get_lmsr_cost q_target q_other
    let new_q_target := max 0 (q_target - shares_to_sell)
    let new_cost := get_lmsr_cost new_q_target q_other
    let gross_payout := current_cost - new_cost
    let fee := gross_payout * TRADING_FEE
    .ok (gross_payout - fee, fee, gross_payout)

/-! ## Basic facts about the constants -/

lemma LMSR_B_pos : (0 : ℝ) < LMSR_B := by norm_num [LMSR_B]

lemma LMSR_B_ne : LMSR_B ≠ 0 := ne_of_gt LMSR_B_pos

/-- Claim C1: for every pair of finite pool states the price lies in
`[0,1]`, clamps to `0` when `(qNo-qYes)/B > 100` and to `1` when
`(qNo-qYes)/B < -100`, and the two sides are complementary. -/
theorem claim_C1_price_bounds (qy qn : ℝ) :
    0 ≤ get_prob qy qn ∧ get_prob qy qn ≤ 1 ∧
    ((qn - qy) / LMSR_B > 100 → get_prob qy qn = 0) ∧
    ((qn - qy) / LMSR_B < -100 → get_prob qy qn = 1) ∧
    get_prob qy qn + get_prob qn qy = 1 := by
  have hswap : (qy - qn) / LMSR_B = -((qn - qy) / LMSR_B) := by ring
  set d := (qn - qy) / LMSR_B with hd
  have hexp : (0 : ℝ) < Real.exp d := Real.exp_pos d
  have hden : (0 : ℝ) < 1 + Real.exp d := by linarith
  have hbounds : 0 ≤ get_prob qy qn ∧ get_prob qy qn ≤ 1 := by
    unfold get_prob
    rw [← hd]
    split
    · norm_num
    · split
      · norm_num
      · constructor
        · positivity
        · rw [div_le_one hden]
          linarith
  refine ⟨hbounds.1, hbounds.2, ?_, ?_, ?_⟩
  · intro h
    unfold get_prob
    rw [← hd, if_pos h]
  · intro h
    unfold get_prob
    rw [← hd, if_neg (by linarith), if_pos h]
  · unfold get_prob
    rw [← hd, hswap]
    by_cases h1 : d > 100
    · rw [if_pos h1, if_neg (by linarith), if_pos (by linarith)]
      norm_num
    · by_cases h2 : d < -100
      · rw [if_neg h1, if_pos h2, if_pos (by linarith)]
        norm_num
      · rw [if_neg h1, if_neg h2, if_neg (by simp; linarith),
          if_neg (by simp; linarith)]
        rw [Real.exp_neg]
        have hne : (1 : ℝ) + Real.exp d ≠ 0 := ne_of_gt hden
        have hinv : (0 : ℝ) < 1 + (Real.exp d)⁻¹ := by positivity
        field_simp
        ring

/-- Witness for C1 at a concrete clamped input. -/
theorem claim_C1_witness :
    get_prob 0 30100 = 0 ∧ get_prob 0 30100 + get_prob 30100 0 = 1 := by
  have h := claim_C1_price_bounds 0 30100
  refine ⟨h.2.2.1 ?_, h.2.2.2.2⟩
  rw [show ((30100 : ℝ) - 0) / LMSR_B = 30100 / 300 by rw [LMSR_B]; ring]
  norm_num

/-! ## Cost-function identities -/

lemma fee_bounds : 0 < TRADING_FEE ∧ TRADING_FEE < 1 := by norm_num [TRADING_FEE]

/-- The max-shifted cost equals the plain log-sum-exp form. -/
lemma get_lmsr_cost_eq (q1 q2 : ℝ) :
    get_lmsr_cost q1 q2 =
      LMSR_B * Real.log (Real.exp (q1 / LMSR_B) + Real.exp (q2 / LMSR_B)) := by
  simp only [get_lmsr_cost]
  set m := max q1 q2 with hm
  have h1 : (q1 - m) / LMSR_B = q1 / LMSR_B - m / LMSR_B := by ring
  have h2 : (q2 - m) / LMSR_B = q2 / LMSR_B - m / LMSR_B := by ring
  rw [h1, h2, Real.exp_sub, Real.exp_sub, div_add_div_same,
    Real.log_div (by positivity) (Real.exp_ne_zero _), Real.log_exp]
  field_simp [LMSR_B_ne]
  ring

lemma exp_cost_div (q1 q2 : ℝ) :
    Real.exp (get_lmsr_cost q1 q2 / LMSR_B) =
      Real.exp (q1 / LMSR_B) + Real.exp (q2 / LMSR_B) := by
  rw [get_lmsr_cost_eq, mul_div_cancel_left₀ _ LMSR_B_ne,
    Real.exp_log (by positivity)]

lemma get_lmsr_cost_lt_left (q1 q2 : ℝ) : q2 < get_lmsr_cost q1 q2 := by
  rw [get_lmsr_cost_eq]
  have h : Real.exp (q2 / LMSR_B) <
      Real.exp (q1 / LMSR_B) + Real.exp (q2 / LMSR_B) := by
    have := Real.exp_pos (q1 / LMSR_B)
    linarith
  have h2 : q2 / LMSR_B <
      Real.log (Real.exp (q1 / LMSR_B) + Real.exp (q2 / LMSR_B)) :=
    (Real.lt_log_iff_exp_lt (by positivity)).mpr h
  have h3 := (mul_lt_mul_left LMSR_B_pos).mpr h2
  have h4 : LMSR_B * (q2 / LMSR_B) = q2 := by
    rw [mul_comm]
    exact div_mul_cancel₀ q2 LMSR_B_ne
  linarith [h4 ▸ h3]

/-- The cost function is strictly increasing in the sold-off coordinate. -/
lemma get_lmsr_cost_lt_cost (q2 : ℝ) {a b : ℝ} (h : a < b) :
    get_lmsr_cost a q2 < get_lmsr_cost b q2 := by
  rw [get_lmsr_cost_eq, get_lmsr_cost_eq]
  refine (mul_lt_mul_left LMSR_B_pos).mpr (Real.log_lt_log (by positivity) ?_)
  have : Real.exp (a / LMSR_B) < Real.exp (b / LMSR_B) :=
    Real.exp_lt_exp.mpr ((div_lt_div_right LMSR_B_pos).mpr h)
  linarith

/-- Claim C4: buying `X` points of shares (at fee `f`) and immediately
selling all of them back nets exactly `X·(1-f)²`, which is strictly less
than `X`. -/
theorem claim_C4_roundtrip_loss (qT qO X : ℝ) (hqT : 0 ≤ qT) (hX : 0 < X) :
    ∃ s net fee gross,
      calculate_shares_out_lmsr qT qO X = (s, X * (1 - TRADING_FEE)) ∧
      0 < s ∧
      calculate_cash_out_lmsr (qT + s) qO s = .ok (net, fee, gross) ∧
      net = X * (1 - TRADING_FEE) ^ 2 ∧
      net < X := by
  have hB := LMSR_B_pos
  set net0 := X * (1 - TRADING_FEE) with hnet0def
  have hnet0 : 0 < net0 := by
    have : (0 : ℝ) < 1 - TRADING_FEE := by norm_num [TRADING_FEE]
    positivity
  set C := get_lmsr_cost qT qO with hC
  set inner := Real.exp ((C + net0) / LMSR_B) - Real.exp (qO / LMSR_B) with hinner
  have hCq : qO < C := get_lmsr_cost_lt_left qT qO
  have hinner_pos : 0 < inner := by
    have : Real.exp (qO / LMSR_B) < Real.exp ((C + net0) / LMSR_B) :=
      Real.exp_lt_exp.mpr ((div_lt_div_right hB).mpr (by linarith))
    simp only [hinner]
    linarith
  have hExpC : Real.exp (C / LMSR_B) =
      Real.exp (qT / LMSR_B) + Real.exp (qO / LMSR_B) := exp_cost_div qT qO
  have hsplit : Real.exp ((C + net0) / LMSR_B) =
      Real.exp (C / LMSR_B) * Real.exp (net0 / LMSR_B) := by
    rw [← Real.exp_add]
    congr 1
    ring
  have hE1 : 1 < Real.exp (net0 / LMSR_B) := by
    have h0 : Real.exp 0 < Real.exp (net0 / LMSR_B) :=
      Real.exp_lt_exp.mpr (by positivity)
    rwa [Real.exp_zero] at h0
  have hinner_gt : Real.exp (qT / LMSR_B) < inner := by
    have hqTpos := Real.exp_pos (qT / LMSR_B)
    have hqOpos := Real.exp_pos (qO / LMSR_B)
    simp only [hinner, hsplit, hExpC]
    nlinarith
  set s := LMSR_B * Real.log inner - qT with hs
  have hshares : calculate_shares_out_lmsr qT qO X = (s, net0) := by
    simp only [calculate_shares_out_lmsr, ← hC, ← hnet0def, ← hinner]
    rw [if_neg (not_le.mpr hinner_pos)]
  have hs_pos : 0 < s := by
    have hlog : qT / LMSR_B < Real.log inner :=
      (Real.lt_log_iff_exp_lt hinner_pos).mpr hinner_gt
    have : LMSR_B * (qT / LMSR_B) < LMSR_B * Real.log inner :=
      (mul_lt_mul_left hB).mpr hlog
    have hqTeq : LMSR_B * (qT / LMSR_B) = qT := by field_simp
    simp only [hs]
    linarith [hqTeq ▸ this]
  have hsum : qT + s = LMSR_B * Real.log inner := by
    simp only [hs]
    ring
  have hcost_new : get_lmsr_cost (qT + s) qO = C + net0 := by
    rw [hsum, get_lmsr_cost_eq, mul_div_cancel_left₀ _ LMSR_B_ne,
      Real.exp_log hinner_pos]
    have : inner + Real.exp (qO / LMSR_B) = Real.exp ((C + net0) / LMSR_B) := by
      simp only [hinner]
      ring
    rw [this, Real.log_exp, mul_div_cancel₀ _ LMSR_B_ne]
  have hcash : calculate_cash_out_lmsr (qT + s) qO s =
      .ok (net0 * (1 - TRADING_FEE), net0 * TRADING_FEE, net0) := by
    simp only [calculate_cash_out_lmsr]
    rw [if_neg (by push_neg; linarith), if_neg (not_lt.mpr hs_pos.le)]
    have hmax : max 0 (qT + s - s) = qT := by
      rw [show qT + s - s = qT by ring]
      exact max_eq_right hqT
    rw [hmax, hcost_new, ← hC]
    have : C + net0 - C = net0 := by ring
    rw [this]
    congr 1
    ring
  refine ⟨s, net0 * (1 - TRADING_FEE), net0 * TRADING_FEE, net0,
    hshares, hs_pos, hcash, by rw [hnet0def]; ring, ?_⟩
  have hfe : net0 * (1 - TRADING_FEE) = X * 0.9025 := by
    rw [hnet0def, show TRADING_FEE = 0.05 from rfl]
    ring
  rw [hfe]
  nlinarith

/-- Witness for C4 at the spec's concrete scenario (`qYes=qNo=0`,
buying `100` points). -/
theorem claim_C4_witness :
    ∃ s net fee gross,
      calculate_shares_out_lmsr 0 0 100 = (s, 100 * (1 - TRADING_FEE)) ∧
      0 < s ∧
      calculate_cash_out_lmsr (0 + s) 0 s = .ok (net, fee, gross) ∧
      net = 100 * (1 - TRADING_FEE) ^ 2 ∧
      net < 100 :=
  claim_C4_roundtrip_loss 0 0 100 (by norm_num) (by norm_num)

/-! ## Data model, from the SQLite schema in `init_db` -/

/-- A bet side (`position` column). -/
inductive Side
  | yes
  | no
deriving DecidableEq

/-- Market lifecycle status (`status` column). -/
inductive Status
  | pending
  | active
  | awaiting_resolution
  | auto_resolved
  | closed
  | rejected
deriving DecidableEq

/-- A row of the `users` table. -/
structure UserRow where
  balance : ℝ
  lastClaim : Option ℤ
  lastProposal : Option ℤ

/-- A row of the `markets` table. -/
structure Market where
  question : String
  creatorId : ℕ
  createdAt : ℤ
  closesAt : ℤ
  status : Status
  result : Option Side
  poolYes : ℝ
  poolNo : ℝ
  feeCollected : ℝ

/-- A row of the `positions` table. -/
structure Position where
  marketId : ℕ
  userId : ℕ
  side : Side
  shares : ℝ
  totalSpent : ℝ

/-- A row of the `price_history` table. -/
structure PricePoint where
  marketId : ℕ
  probYes : ℝ
  time : ℤ

/-- The whole database. -/
structure DB where
  users : ℕ → Option UserRow
  markets : ℕ → Option Market
  positions : List Position
  priceHistory : List PricePoint

def setUser (db : DB) (uid : ℕ) (r : UserRow) : DB :=
  { db with users := fun u => if u = uid then some r else db.users u }

def setMarket (db : DB) (mid : ℕ) (m : Market) : DB :=
  { db with markets := fun i => if i = mid then some m else db.markets i }

/-- The status of market `mid`, if it exists. -/
def mstatus (db : DB) (mid : ℕ) : Option Status := (db.markets mid).map (·.status)

/-- The recorded result of market `mid`, if it exists. -/
def mresult (db : DB) (mid : ℕ) : Option (Option Side) := (db.markets mid).map (·.result)

/-! ## Ledger, from `LMSR_v3.py` lines 215-233 -/

/-- `update_balance(user_id, amount)`: `INSERT OR IGNORE` (creating the
row at the schema default `STARTING_BALANCE`) followed by
`balance = balance + amount`. -/
noncomputable def update_balance (db : DB) (uid : ℕ) (amount : ℝ) : DB :=
  match db.users uid with
  | some r => setUser db uid { r with balance := r.balance + amount }
  | none => setUser db uid
      { balance := STARTING_BALANCE + amount, lastClaim := none, lastProposal := none }

/-- The balance `get_balance(user_id)` reports: the stored balance, or
the schema default for an absent row. -/
noncomputable def balOf (db : DB) (uid : ℕ) : ℝ :=
  match db.users uid with
  | some r => r.balance
  | none => STARTING_BALANCE

/-- `get_balance(user_id)`: reports the balance and lazily creates the
row (via `update_balance(user_id, 0)`) when absent. -/
noncomputable def get_balance (db : DB) (uid : ℕ) : ℝ × DB :=
  match db.users uid with
  | some r => (r.balance, db)
  | none => (STARTING_BALANCE, update_balance db uid 0)

lemma balOf_update_balance (db : DB) (v : ℕ) (a : ℝ) (u : ℕ) :
    balOf (update_balance db v a) u = balOf db u + if u = v then a else 0 := by
  unfold balOf update_balance setUser
  cases h : db.users v <;> by_cases hu : u = v <;> simp [h, hu]

lemma update_balance_markets (db : DB) (v : ℕ) (a : ℝ) :
    (update_balance db v a).markets = db.markets := by
  unfold update_balance setUser
  cases db.users v <;> rfl

lemma update_balance_positions (db : DB) (v : ℕ) (a : ℝ) :
    (update_balance db v a).positions = db.positions := by
  unfold update_balance setUser
  cases db.users v <;> rfl

lemma update_balance_priceHistory (db : DB) (v : ℕ) (a : ℝ) :
    (update_balance db v a).priceHistory = db.priceHistory := by
  unfold update_balance setUser
  cases db.users v <;> rfl

lemma balOf_get_balance (db : DB) (v u : ℕ) :
    balOf (get_balance db v).2 u = balOf db u := by
  unfold get_balance
  cases h : db.users v
  · rw [balOf_update_balance]
    split <;> simp
  · rfl

lemma get_balance_fst (db : DB) (v : ℕ) : (get_balance db v).1 = balOf db v := by
  unfold get_balance balOf
  cases db.users v <;> rfl

lemma get_balance_markets (db : DB) (v : ℕ) :
    (get_balance db v).2.markets = db.markets := by
  unfold get_balance
  cases db.users v
  · exact update_balance_markets ..
  · rfl

lemma get_balance_positions (db : DB) (v : ℕ) :
    (get_balance db v).2.positions = db.positions := by
  unfold get_balance
  cases db.users v
  · exact update_balance_positions ..
  · rfl

lemma get_balance_priceHistory (db : DB) (v : ℕ) :
    (get_balance db v).2.priceHistory = db.priceHistory := by
  unfold get_balance
  cases db.users v
  · exact update_balance_priceHistory ..
  · rfl

/-! ## Position-table helpers -/

/-- `SELECT ... FROM positions WHERE user_id=? AND market_id=? AND position=?`
(first matching row). -/
def findPos (ps : List Position) (mid uid : ℕ) (s : Side) : Option Position :=
  ps.find? (fun p => decide (p.marketId = mid ∧ p.userId = uid ∧ p.side = s))

/-- `UPDATE positions ... WHERE id=?` on the row `findPos` returned. -/
def updateFirstPos (ps : List Position) (mid uid : ℕ) (s : Side)
    (f : Position → Position) : List Position :=
  match ps with
  | [] => []
  | p :: rest =>
    if p.marketId = mid ∧ p.userId = uid ∧ p.side = s then f p :: rest
    else p :: updateFirstPos rest mid uid s f

/-- `DELETE FROM positions WHERE id=?` on the row `findPos` returned. -/
def removeFirstPos (ps : List Position) (mid uid : ℕ) (s : Side) : List Position :=
  match ps with
  | [] => []
  | p :: rest =>
    if p.marketId = mid ∧ p.userId = uid ∧ p.side = s then rest
    else p :: removeFirstPos rest mid uid s

@[simp] lemma setMarket_positions (db : DB) (mid : ℕ) (m : Market) :
    (setMarket db mid m).positions = db.positions := rfl

@[simp] lemma setMarket_priceHistory (db : DB) (mid : ℕ) (m : Market) :
    (setMarket db mid m).priceHistory = db.priceHistory := rfl

@[simp] lemma setMarket_users (db : DB) (mid : ℕ) (m : Market) :
    (setMarket db mid m).users = db.users := rfl

@[simp] lemma balOf_setMarket (db : DB) (mid : ℕ) (m : Market) (u : ℕ) :
    balOf (setMarket db mid m) u = balOf db u := rfl

@[simp] lemma setMarket_markets_self (db : DB) (mid : ℕ) (m : Market) :
    (setMarket db mid m).markets mid = some m := by simp [setMarket]

/-! ## Resolution payout, from `LMSR_v3.py` lines 1299-1310 -/

/-- Whether a position row is on the winning side of market `mid`. -/
def isWin (mid : ℕ) (w : Side) (p : Position) : Bool :=
  decide (p.marketId = mid ∧ p.side = w)

/-- The payout loop: for each winning row, `INSERT OR IGNORE` the user
and credit `shares * (1 - TRADING_FEE)`. -/
noncomputable def payoutLoop (db : DB) (winners : List Position) : DB :=
  winners.foldl (fun d p => update_balance d p.userId (p.shares * (1 - TRADING_FEE))) db

/-- The `total_paid` accumulator of the payout loop. -/
noncomputable def totalPayout (winners : List Position) : ℝ :=
  (winners.map (fun p => p.shares * (1 - TRADING_FEE))).sum

/-- Sum of winning-side payouts owed to user `u` for market `mid`. -/
noncomputable def userWinSum (ps : List Position) (mid : ℕ) (w : Side) (u : ℕ) : ℝ :=
  (((ps.filter (isWin mid w)).filter (fun p => decide (p.userId = u))).map
    (fun p => p.shares * (1 - TRADING_FEE))).sum

lemma payoutLoop_cons (db : DB) (p : Position) (rest : List Position) :
    payoutLoop db (p :: rest) =
      payoutLoop (update_balance db p.userId (p.shares * (1 - TRADING_FEE))) rest := rfl

lemma payoutLoop_markets (l : List Position) (db : DB) :
    (payoutLoop db l).markets = db.markets := by
  induction l generalizing db with
  | nil => rfl
  | cons p rest ih => rw [payoutLoop_cons, ih, update_balance_markets]

lemma payoutLoop_positions (l : List Position) (db : DB) :
    (payoutLoop db l).positions = db.positions := by
  induction l generalizing db with
  | nil => rfl
  | cons p rest ih => rw [payoutLoop_cons, ih, update_balance_positions]

lemma payoutLoop_priceHistory (l : List Position) (db : DB) :
    (payoutLoop db l).priceHistory = db.priceHistory := by
  induction l generalizing db with
  | nil => rfl
  | cons p rest ih => rw [payoutLoop_cons, ih, update_balance_priceHistory]

lemma balOf_payoutLoop (l : List Position) (db : DB) (u : ℕ) :
    balOf (payoutLoop db l) u = balOf db u +
      ((l.filter (fun p => decide (p.userId = u))).map
        (fun p => p.shares * (1 - TRADING_FEE))).sum := by
  induction l generalizing db with
  | nil => simp [payoutLoop]
  | cons p rest ih =>
    rw [payoutLoop_cons, ih, balOf_update_balance]
    by_cases h : p.userId = u
    · rw [if_pos h.symm]
      simp only [List.filter_cons]
      rw [if_pos (by simp [h]), List.map_cons, List.sum_cons]
      ring
    · rw [if_neg (fun hu => h hu.symm), add_zero]
      simp only [List.filter_cons]
      rw [if_neg (by simp [h])]

lemma userWinSum_cons (p : Position) (ps : List Position) (mid : ℕ) (w : Side) (u : ℕ) :
    userWinSum (p :: ps) mid w u =
      (if p.marketId = mid ∧ p.side = w ∧ p.userId = u
        then p.shares * (1 - TRADING_FEE) else 0) + userWinSum ps mid w u := by
  unfold userWinSum isWin
  by_cases h1 : p.marketId = mid ∧ p.side = w
  · by_cases h2 : p.userId = u
    · rw [if_pos ⟨h1.1, h1.2, h2⟩]
      simp [List.filter_cons, h1, h2]
    · rw [if_neg (by tauto)]
      simp [List.filter_cons, h1, h2]
  · rw [if_neg (by tauto)]
    simp [List.filter_cons, h1]

lemma userWinSum_eq_zero (ps : List Position) (mid : ℕ) (w : Side) (u : ℕ)
    (h : ∀ p ∈ ps, ¬(p.marketId = mid ∧ p.side = w ∧ p.userId = u)) :
    userWinSum ps mid w u = 0 := by
  induction ps with
  | nil => rfl
  | cons p rest ih =>
    rw [userWinSum_cons, if_neg (h p (by simp)), zero_add]
    exact ih fun q hq => h q (by simp [hq])

/-- The `/resolve` admin command (`LMSR_v3.py` lines 1281-1319): valid
from `active` or `awaiting_resolution`; closes the market, records the
result, credits each winning position `shares·(1-fee)` and deletes all
positions of the market. -/
noncomputable def resolve_command (db : DB) (mid : ℕ) (win : Side) :
    Except Unit ℝ × DB :=
  match db.markets mid with
  | none => (.error (), db)
  | some m =>
    if m.status ≠ .active ∧ m.status ≠ .awaiting_resolution then (.error (), db)
    else
      let db1 := setMarket db mid { m with status := .closed, result := some win }
      let winners := db1.positions.filter (isWin mid win)
      let db2 := payoutLoop db1 winners
      let db3 := { db2 with positions :=
        db2.positions.filter (fun p => decide (p.marketId ≠ mid)) }
      (.ok (totalPayout winners), db3)

/-- Claim C2: resolution credits every winning position
`shares·(1-fee)` to its owner, pays `Σ shares·(1-fee)` in total, pays
losing positions nothing, and deletes all positions of the market. -/
theorem claim_C2_resolve_payout (db : DB) (mid : ℕ) (win : Side) (m : Market)
    (hm : db.markets mid = some m)
    (hst : m.status = .active ∨ m.status = .awaiting_resolution) :
    (resolve_command db mid win).1 =
      .ok (totalPayout (db.positions.filter (isWin mid win))) ∧
    (∀ u, balOf (resolve_command db mid win).2 u =
      balOf db u + userWinSum db.positions mid win u) ∧
    (∀ u, (∀ p ∈ db.positions, ¬(p.marketId = mid ∧ p.side = win ∧ p.userId = u)) →
      balOf (resolve_command db mid win).2 u = balOf db u) ∧
    (resolve_command db mid win).2.positions =
      db.positions.filter (fun p => decide (p.marketId ≠ mid)) ∧
    mstatus (resolve_command db mid win).2 mid = some .closed ∧
    mresult (resolve_command db mid win).2 mid = some (some win) := by
  have hcond : ¬(m.status ≠ .active ∧ m.status ≠ .awaiting_resolution) := by
    rcases hst with h | h <;> simp [h]
  have hres : resolve_command db mid win =
      (.ok (totalPayout (db.positions.filter (isWin mid win))),
       { payoutLoop (setMarket db mid { m with status := .closed, result := some win })
           (db.positions.filter (isWin mid win)) with
         positions := db.positions.filter (fun p => decide (p.marketId ≠ mid)) }) := by
    simp only [resolve_command, hm, if_neg hcond, setMarket_positions,
      payoutLoop_positions]
  have hbal : ∀ u, balOf (resolve_command db mid win).2 u =
      balOf db u + userWinSum db.positions mid win u := by
    intro u
    rw [hres]
    show balOf (payoutLoop _ _) u = _
    rw [balOf_payoutLoop, balOf_setMarket]
    rfl
  refine ⟨by rw [hres], hbal, ?_, by rw [hres], ?_, ?_⟩
  · intro u hu
    rw [hbal u, userWinSum_eq_zero db.positions mid win u hu, add_zero]
  · rw [hres]
    show ((payoutLoop _ _).markets mid).map (·.status) = some Status.closed
    rw [payoutLoop_markets]
    simp
  · rw [hres]
    show ((payoutLoop _ _).markets mid).map (·.result) = some (some win)
    rw [payoutLoop_markets]
    simp

/-- Witness for C2: a two-user market resolved YES pays the YES holder
`10·0.95` and pays the NO holder nothing; all positions are deleted. -/
noncomputable def c2db : DB :=
  { users := fun u => if u = 7 then some ⟨100, none, none⟩
      else if u = 8 then some ⟨200, none, none⟩ else none,
    markets := fun i => if i = 1 then some
      { question := "q", creatorId := 7, createdAt := 0, closesAt := 100,
        status := .active, result := none, poolYes := 10, poolNo := 4,
        feeCollected := 0 } else none,
    positions := ([⟨1, 7, .yes, 10, 50⟩, ⟨1, 8, .no, 4, 20⟩] : List Position),
    priceHistory := [] }

theorem claim_C2_witness :
    balOf (resolve_command c2db 1 .yes).2 7 = 100 + 10 * (1 - TRADING_FEE) ∧
    balOf (resolve_command c2db 1 .yes).2 8 = 200 ∧
    (resolve_command c2db 1 .yes).2.positions = [] ∧
    mstatus (resolve_command c2db 1 .yes).2 1 = some .closed := by
  have h := claim_C2_resolve_payout c2db 1 .yes
    { question := "q", creatorId := 7, createdAt := 0, closesAt := 100,
      status := .active, result := none, poolYes := 10, poolNo := 4,
      feeCollected := 0 } (by simp [c2db]) (Or.inl rfl)
  obtain ⟨-, hbal, -, hpos, hstat, -⟩ := h
  refine ⟨?_, ?_, ?_, hstat⟩
  · rw [hbal 7]
    have h7 : balOf c2db 7 = 100 := by simp [balOf, c2db]
    have hw : userWinSum c2db.positions 1 .yes 7 = 10 * (1 - TRADING_FEE) := by
      show userWinSum [⟨1, 7, .yes, 10, 50⟩, ⟨1, 8, .no, 4, 20⟩] 1 .yes 7 = _
      rw [userWinSum_cons, userWinSum_cons]
      norm_num
      rfl
    rw [h7, hw]
  · rw [hbal 8]
    have h8 : balOf c2db 8 = 200 := by simp [balOf, c2db]
    have hw : userWinSum c2db.positions 1 .yes 8 = 0 := by
      apply userWinSum_eq_zero
      intro p hp
      simp only [c2db, List.mem_cons, List.not_mem_nil, or_false] at hp
      rcases hp with h | h <;> rw [h] <;> simp
    rw [h8, hw, add_zero]
  · rw [hpos]
    simp [c2db]

/-! ## Expired-market scan, from `LMSR_v3.py` lines 988-1080 -/

/-- One iteration of the `check_expired_markets` loop, applied to one
market returned by the `status='active' AND closes_at <= now` query. -/
noncomputable def check_expired_market_step (db : DB) (mid : ℕ) : DB :=
  match db.markets mid with
  | none => db
  | some m =>
    let prob_yes := get_prob m.poolYes m.poolNo * 100
    let predicted_winner : Option Side :=
      if prob_yes ≥ AUTO_RESOLVE_THRESHOLD then some .yes
      else if prob_yes ≤ 100 - AUTO_RESOLVE_THRESHOLD then some .no
      else none
    match predicted_winner with
    | some w =>
      if AUTO_RESOLVE_ENABLED then
        let db1 := setMarket db mid { m with status := .auto_resolved, result := some w }
        let winners := db1.positions.filter (isWin mid w)
        let db2 := payoutLoop db1 winners
        { db2 with positions := db2.positions.filter (fun p => decide (p.marketId ≠ mid)) }
      else setMarket db mid { m with status := .awaiting_resolution }
    | none => setMarket db mid { m with status := .awaiting_resolution }

lemma scan_step_auto (db : DB) (mid : ℕ) (m : Market) (w : Side)
    (hm : db.markets mid = some m)
    (hw : (if get_prob m.poolYes m.poolNo * 100 ≥ AUTO_RESOLVE_THRESHOLD then some Side.yes
           else if get_prob m.poolYes m.poolNo * 100 ≤ 100 - AUTO_RESOLVE_THRESHOLD then some Side.no
           else none) = some w) :
    mstatus (check_expired_market_step db mid) mid = some .auto_resolved ∧
    mresult (check_expired_market_step db mid) mid = some (some w) ∧
    (∀ u, balOf (check_expired_market_step db mid) u =
      balOf db u + userWinSum db.positions mid w u) ∧
    (check_expired_market_step db mid).positions =
      db.positions.filter (fun p => decide (p.marketId ≠ mid)) := by
  have hstep : check_expired_market_step db mid =
      { payoutLoop (setMarket db mid { m with status := .auto_resolved, result := some w })
          (db.positions.filter (isWin mid w)) with
        positions := db.positions.filter (fun p => decide (p.marketId ≠ mid)) } := by
    simp only [check_expired_market_step, hm, hw, AUTO_RESOLVE_ENABLED, if_true,
      setMarket_positions, payoutLoop_positions]
  refine ⟨?_, ?_, ?_, by rw [hstep]⟩
  · rw [hstep]
    show (((payoutLoop _ _).markets mid).map (·.status)) = some Status.auto_resolved
    rw [payoutLoop_markets]
    simp
  · rw [hstep]
    show (((payoutLoop _ _).markets mid).map (·.result)) = some (some w)
    rw [payoutLoop_markets]
    simp
  · intro u
    rw [hstep]
    show balOf (payoutLoop _ _) u = _
    rw [balOf_payoutLoop, balOf_setMarket]
    rfl

lemma scan_step_manual (db : DB) (mid : ℕ) (m : Market)
    (hm : db.markets mid = some m)
    (hw : (if get_prob m.poolYes m.poolNo * 100 ≥ AUTO_RESOLVE_THRESHOLD then some Side.yes
           else if get_prob m.poolYes m.poolNo * 100 ≤ 100 - AUTO_RESOLVE_THRESHOLD then some Side.no
           else none) = none) :
    check_expired_market_step db mid =
      setMarket db mid { m with status := .awaiting_resolution } := by
  simp only [check_expired_market_step, hm, hw]

/-- Claim C3: an expired active market auto-resolves (with the implied
winner and an immediate payout) exactly when auto-resolution is enabled
and `probYes·100 ≥ threshold` or `probYes·100 ≤ 100 - threshold`, and
goes to `awaiting_resolution` in every other case. -/
theorem claim_C3_expiry_scan (db : DB) (now : ℤ) (mid : ℕ) (m : Market)
    (hm : db.markets mid = some m) (hs : m.status = .active)
    (hc : m.closesAt ≤ now) :
    (mstatus (check_expired_market_step db mid) mid = some .auto_resolved ↔
      AUTO_RESOLVE_ENABLED = true ∧
        (get_prob m.poolYes m.poolNo * 100 ≥ AUTO_RESOLVE_THRESHOLD ∨
         get_prob m.poolYes m.poolNo * 100 ≤ 100 - AUTO_RESOLVE_THRESHOLD)) ∧
    (¬(AUTO_RESOLVE_ENABLED = true ∧
        (get_prob m.poolYes m.poolNo * 100 ≥ AUTO_RESOLVE_THRESHOLD ∨
         get_prob m.poolYes m.poolNo * 100 ≤ 100 - AUTO_RESOLVE_THRESHOLD)) →
      check_expired_market_step db mid =
        setMarket db mid { m with status := .awaiting_resolution }) ∧
    (get_prob m.poolYes m.poolNo * 100 ≥ AUTO_RESOLVE_THRESHOLD →
      mresult (check_expired_market_step db mid) mid = some (some .yes) ∧
      (∀ u, balOf (check_expired_market_step db mid) u =
        balOf db u + userWinSum db.positions mid .yes u) ∧
      (check_expired_market_step db mid).positions =
        db.positions.filter (fun p => decide (p.marketId ≠ mid))) ∧
    (¬ get_prob m.poolYes m.poolNo * 100 ≥ AUTO_RESOLVE_THRESHOLD →
      get_prob m.poolYes m.poolNo * 100 ≤ 100 - AUTO_RESOLVE_THRESHOLD →
      mresult (check_expired_market_step db mid) mid = some (some .no) ∧
      (∀ u, balOf (check_expired_market_step db mid) u =
        balOf db u + userWinSum db.positions mid .no u) ∧
      (check_expired_market_step db mid).positions =
        db.positions.filter (fun p => decide (p.marketId ≠ mid))) := by
  by_cases hy : get_prob m.poolYes m.poolNo * 100 ≥ AUTO_RESOLVE_THRESHOLD
  · have h := scan_step_auto db mid m .yes hm (by rw [if_pos hy])
    refine ⟨⟨fun _ => ⟨rfl, Or.inl hy⟩, fun _ => h.1⟩, ?_, fun _ => ⟨h.2.1, h.2.2.1, h.2.2.2⟩,
      fun hny _ => absurd hy hny⟩
    intro hnot
    exact absurd ⟨rfl, Or.inl hy⟩ hnot
  · by_cases hn : get_prob m.poolYes m.poolNo * 100 ≤ 100 - AUTO_RESOLVE_THRESHOLD
    · have h := scan_step_auto db mid m .no hm (by rw [if_neg hy, if_pos hn])
      refine ⟨⟨fun _ => ⟨rfl, Or.inr hn⟩, fun _ => h.1⟩, ?_, fun hy2 => absurd hy2 hy,
        fun _ _ => ⟨h.2.1, h.2.2.1, h.2.2.2⟩⟩
      intro hnot
      exact absurd ⟨rfl, Or.inr hn⟩ hnot
    · have h := scan_step_manual db mid m hm (by rw [if_neg hy, if_neg hn])
      have hstat : mstatus (check_expired_market_step db mid) mid =
          some .awaiting_resolution := by
        rw [h]
        simp [mstatus]
      refine ⟨⟨fun hc2 => ?_, fun hc2 => ?_⟩, fun _ => h,
        fun hy2 => absurd hy2 hy, fun _ hn2 => absurd hn2 hn⟩
      · rw [hstat] at hc2
        exact absurd (Option.some.inj hc2) (by simp)
      · rcases hc2.2 with h2 | h2
        · exact absurd h2 hy
        · exact absurd h2 hn

/-- Witness for C3: the spec's concrete scenario — `qYes = qNo = 0`
(price 50%), close time past, threshold 70 — goes to
`awaiting_resolution`, not `auto_resolved`. -/
noncomputable def c3db : DB :=
  { users := fun _ => none,
    markets := fun i => if i = 3 then some
      { question := "q", creatorId := 5, createdAt := 0, closesAt := 10,
        status := .active, result := none, poolYes := 0, poolNo := 0,
        feeCollected := 0 } else none,
    positions := [],
    priceHistory := [] }

theorem claim_C3_witness :
    mstatus (check_expired_market_step c3db 3) 3 = some .awaiting_resolution := by
  have hp : get_prob 0 0 = 1 / 2 := by
    unfold get_prob
    rw [if_neg (by norm_num [LMSR_B]), if_neg (by norm_num [LMSR_B])]
    norm_num [Real.exp_zero]
  have h := claim_C3_expiry_scan c3db 50 3
    { question := "q", creatorId := 5, createdAt := 0, closesAt := 10,
      status := .active, result := none, poolYes := 0, poolNo := 0,
      feeCollected := 0 } (by simp [c3db]) rfl (by norm_num)
  have hnot : ¬(AUTO_RESOLVE_ENABLED = true ∧
      (get_prob 0 0 * 100 ≥ AUTO_RESOLVE_THRESHOLD ∨
       get_prob 0 0 * 100 ≤ 100 - AUTO_RESOLVE_THRESHOLD)) := by
    rw [hp]
    norm_num [AUTO_RESOLVE_THRESHOLD]
  rw [h.2.1 hnot]
  simp [mstatus]

/-! ## Trading operations -/

/-- Error outcomes surfaced by the bot's trading and proposal handlers. -/
inductive Err
  | invalidAmount
  | insufficientFunds
  | marketNotFound
  | marketClosedErr
  | marketExpired
  | notEnoughShares
  | amountTooSmall
  | sellTooManyOutstanding
  | sellNegativeShares
  | positionNotFound
  | durationOutOfRange
  | cooldownActive
deriving DecidableEq

/-- How a `ValueError` from the sell calculation surfaces to the user. -/
def liftSellErr : SellCalcErr → Err
  | .tooManyShares => .sellTooManyOutstanding
  | .negativeShares => .sellNegativeShares

/-- The pool on the traded side. -/
def targetPool (m : Market) (s : Side) : ℝ :=
  match s with
  | .yes => m.poolYes
  | .no => m.poolNo

/-- The pool on the opposite side. -/
def otherPool (m : Market) (s : Side) : ℝ :=
  match s with
  | .yes => m.poolNo
  | .no => m.poolYes

/-- `SellModal.on_submit` (`LMSR_v3.py` lines 450-541).  `amt` is the
parsed share-amount input; `mx` is the modal's `max_shares` (the
holding captured when the modal was opened).  Returns the outcome
together with the database state after the handler returns — mutations
committed before an error path are therefore visible in the result. -/
noncomputable def sell_on_submit (db : DB) (now : ℤ) (mid uid : ℕ) (side : Side)
    (amt mx : ℝ) : Except Err Unit × DB :=
  match db.markets mid with
  | none => (.error .marketNotFound, db)
  | some m =>
    if m.status ≠ .active ∧ m.status ≠ .awaiting_resolution then
      (.error .marketClosedErr, db)
    else if m.status = .active ∧ m.closesAt < now then (.error .marketExpired, db)
    else
      let shares_to_sell := if amt > 0 then amt else mx
      if shares_to_sell > mx then (.error .notEnoughShares, db)
      else if shares_to_sell < 0.01 then (.error .amountTooSmall, db)
      else
        match calculate_cash_out_lmsr (targetPool m side) (otherPool m side)
            shares_to_sell with
        | .error e => (.error (liftSellErr e), db)
        | .ok (cash_out, fee, _raw) =>
          let db1 := update_balance db uid cash_out
          match findPos db1.positions mid uid side with
          | none => (.error .positionNotFound, db1)
          | some _p =>
            let remaining := mx - shares_to_sell
            let upd : Position → Position := fun q =>
              { q with
                shares := remaining
                totalSpent := q.totalSpent * (remaining / mx) }
            let db2 :=
              if remaining < 0.01 then
                { db1 with positions := removeFirstPos db1.positions mid uid side }
              else
                { db1 with positions := updateFirstPos db1.positions mid uid side upd }
            let new_yes := match side with
              | .yes => m.poolYes - shares_to_sell
              | .no => m.poolYes
            let new_no := match side with
              | .yes => m.poolNo
              | .no => m.poolNo - shares_to_sell
            let db3 := setMarket db2 mid
              { m with
                poolYes := new_yes
                poolNo := new_no
                feeCollected := m.feeCollected + fee }
            (.ok (), { db3 with priceHistory :=
              db3.priceHistory ++ [⟨mid, get_prob new_yes new_no, now⟩] })

/-- Claim C10: any non-positive requested share amount — zero or
negative alike — is treated as "sell the entire recorded holding". -/
theorem claim_C10_sell_all (db : DB) (now : ℤ) (mid uid : ℕ) (side : Side)
    (amt mx : ℝ) (h : amt ≤ 0) :
    (if amt > 0 then amt else mx) = mx ∧
    sell_on_submit db now mid uid side amt mx =
      sell_on_submit db now mid uid side mx mx := by
  have h1 : (if amt > 0 then amt else mx) = mx := if_neg (not_lt.mpr h)
  have h2 : (if mx > 0 then mx else mx) = mx := ite_self mx
  exact ⟨h1, by simp only [sell_on_submit, h1, h2]⟩

/-- Witness for C10 on a concrete database. -/
noncomputable def c10db : DB :=
  { users := fun u => if u = 4 then some ⟨300, none, none⟩ else none,
    markets := fun i => if i = 2 then some
      { question := "q", creatorId := 4, createdAt := 0, closesAt := 100,
        status := .active, result := none, poolYes := 6, poolNo := 1,
        feeCollected := 0 } else none,
    positions := ([⟨2, 4, .yes, 6, 12⟩] : List Position),
    priceHistory := [] }

theorem claim_C10_witness :
    sell_on_submit c10db 50 2 4 .yes (-3) 6 =
      sell_on_submit c10db 50 2 4 .yes 6 6 :=
  (claim_C10_sell_all c10db 50 2 4 .yes (-3) 6 (by norm_num)).2

/-! ## Claim C5: sell validation -/

noncomputable def c5db : DB :=
  { users := fun u => if u = 7 then some ⟨500, none, none⟩ else none,
    markets := fun i => if i = 1 then some
      { question := "q", creatorId := 7, createdAt := 0, closesAt := 100,
        status := .active, result := none, poolYes := 5, poolNo := 0,
        feeCollected := 0 } else none,
    positions := ([⟨1, 7, .yes, 5, 10⟩] : List Position),
    priceHistory := [] }

/-- Counterexample to C5 as stated: a negative requested amount (−3)
does not fail — the handler sells the entire holding and mutates state
(the position row is deleted). -/
theorem claim_C5_counterexample :
    (sell_on_submit c5db 50 1 7 .yes (-3) 5).1 = .ok () ∧
    (sell_on_submit c5db 50 1 7 .yes (-3) 5).2.positions = [] ∧
    c5db.positions ≠ [] := by
  have hm : c5db.markets 1 = some
      { question := "q", creatorId := 7, createdAt := 0, closesAt := 100,
        status := .active, result := none, poolYes := 5, poolNo := 0,
        feeCollected := 0 } := rfl
  have hcash : calculate_cash_out_lmsr 5 0 5 =
      .ok ((get_lmsr_cost 5 0 - get_lmsr_cost (max 0 (5 - 5)) 0) -
            (get_lmsr_cost 5 0 - get_lmsr_cost (max 0 (5 - 5)) 0) * TRADING_FEE,
           (get_lmsr_cost 5 0 - get_lmsr_cost (max 0 (5 - 5)) 0) * TRADING_FEE,
           get_lmsr_cost 5 0 - get_lmsr_cost (max 0 (5 - 5)) 0) := by
    simp only [calculate_cash_out_lmsr]
    rw [if_neg (by norm_num), if_neg (by norm_num)]
  have hfind : ∀ c : ℝ, findPos (update_balance c5db 7 c).positions 1 7 .yes =
      some ⟨1, 7, .yes, 5, 10⟩ := by
    intro c
    rw [update_balance_positions]
    simp [findPos, c5db, List.find?]
  have hrm : ∀ c : ℝ, removeFirstPos (update_balance c5db 7 c).positions 1 7 .yes = [] := by
    intro c
    rw [update_balance_positions]
    show removeFirstPos ([⟨1, 7, .yes, 5, 10⟩] : List Position) 1 7 .yes = []
    simp [removeFirstPos]
  have hres : (sell_on_submit c5db 50 1 7 .yes (-3) 5).1 = .ok () ∧
      (sell_on_submit c5db 50 1 7 .yes (-3) 5).2.positions = [] := by
    simp only [sell_on_submit, hm]
    rw [if_neg (by simp), if_neg (fun hh => by norm_num at hh)]
    simp only [eq_false (show ¬((-3 : ℝ) > 0) by norm_num), if_false]
    rw [if_neg (by norm_num), if_neg (by norm_num)]
    simp only [targetPool, otherPool, hcash, hfind]
    rw [if_pos (by norm_num)]
    simp only [hrm]
    exact ⟨trivial, rfl⟩
  exact ⟨hres.1, hres.2, by simp [c5db]⟩

/-- Claim C5 (amended): an over-holding request and an over-pool
request each fail with an error and no state mutation, and a directly
negative share quantity is rejected by the pricing function; a negative
*requested amount*, however, is treated as a sell of the entire holding
rather than failing. -/
theorem claim_C5_amended (db : DB) (now : ℤ) (mid uid : ℕ) (side : Side)
    (amt mx : ℝ) (m : Market) (hm : db.markets mid = some m)
    (hact : m.status = .active) (hexp : ¬ m.closesAt < now) :
    (0 < amt → mx < amt →
      sell_on_submit db now mid uid side amt mx = (.error .notEnoughShares, db)) ∧
    (0.01 ≤ amt → amt ≤ mx → targetPool m side < amt →
      sell_on_submit db now mid uid side amt mx =
        (.error .sellTooManyOutstanding, db)) ∧
    (∀ q1 q2 sh : ℝ, sh < 0 → ∃ e, calculate_cash_out_lmsr q1 q2 sh = .error e) := by
  refine ⟨?_, ?_, ?_⟩
  · intro h0 hmx
    simp only [sell_on_submit, hm]
    rw [if_neg (by simp [hact]), if_neg (fun hh => hexp hh.2), if_pos h0,
      if_pos hmx]
  · intro h1 h2 h3
    have h0 : amt > 0 := by linarith
    have hcalc : calculate_cash_out_lmsr (targetPool m side) (otherPool m side) amt =
        .error .tooManyShares := by
      simp only [calculate_cash_out_lmsr]
      rw [if_pos h3]
    simp only [sell_on_submit, hm]
    rw [if_neg (by simp [hact]), if_neg (fun hh => hexp hh.2), if_pos h0,
      if_neg (not_lt.mpr h2), if_neg (not_lt.mpr h1)]
    simp only [hcalc]
    rfl
  · intro q1 q2 sh hsh
    by_cases hq : sh > q1
    · exact ⟨.tooManyShares, by simp only [calculate_cash_out_lmsr]; rw [if_pos hq]⟩
    · exact ⟨.negativeShares,
        by simp only [calculate_cash_out_lmsr]; rw [if_neg hq, if_pos hsh]⟩

/-- Witness for the amended C5: requesting 7 shares with a recorded
holding of 5 fails with `notEnoughShares` and leaves the database
untouched. -/
theorem claim_C5_witness :
    sell_on_submit c5db 50 1 7 .yes 7 5 = (.error .notEnoughShares, c5db) := by
  have h := claim_C5_amended c5db 50 1 7 .yes 7 5
    { question := "q", creatorId := 7, createdAt := 0, closesAt := 100,
      status := .active, result := none, poolYes := 5, poolNo := 0,
      feeCollected := 0 } rfl rfl (by norm_num)
  exact h.1 (by norm_num) (by norm_num)

/-! ## Claim C6: the sell handler's missing-position path commits the
balance credit before failing -/

noncomputable def c6db : DB :=
  { users := fun u => if u = 7 then some ⟨500, none, none⟩ else none,
    markets := fun i => if i = 1 then some
      { question := "q", creatorId := 9, createdAt := 0, closesAt := 100,
        status := .active, result := none, poolYes := 5, poolNo := 0,
        feeCollected := 0 } else none,
    positions := [],
    priceHistory := [] }

/-- Claim C6 exhibit: a sell whose position row is missing passes every
earlier check, credits the payout to the seller's balance via
`update_balance`, and only then fails with "Position not found" — so
this failure does *not* leave all state unchanged. -/
theorem claim_C6_partial_commit :
    (sell_on_submit c6db 50 1 7 .yes 3 5).1 = .error .positionNotFound ∧
    balOf c6db 7 < balOf (sell_on_submit c6db 50 1 7 .yes 3 5).2 7 := by
  have hm : c6db.markets 1 = some
      { question := "q", creatorId := 9, createdAt := 0, closesAt := 100,
        status := .active, result := none, poolYes := 5, poolNo := 0,
        feeCollected := 0 } := rfl
  have hg : 0 < get_lmsr_cost 5 0 - get_lmsr_cost (max 0 (5 - (3:ℝ))) 0 := by
    have h2 : max 0 (5 - (3:ℝ)) = 2 := by norm_num
    rw [h2]
    have := get_lmsr_cost_lt_cost (0 : ℝ) (show (2:ℝ) < 5 by norm_num)
    linarith
  have hcash : calculate_cash_out_lmsr 5 0 3 =
      .ok ((get_lmsr_cost 5 0 - get_lmsr_cost (max 0 (5 - 3)) 0) -
            (get_lmsr_cost 5 0 - get_lmsr_cost (max 0 (5 - 3)) 0) * TRADING_FEE,
           (get_lmsr_cost 5 0 - get_lmsr_cost (max 0 (5 - 3)) 0) * TRADING_FEE,
           get_lmsr_cost 5 0 - get_lmsr_cost (max 0 (5 - 3)) 0) := by
    simp only [calculate_cash_out_lmsr]
    rw [if_neg (by norm_num), if_neg (by norm_num)]
  have hfind : ∀ c : ℝ, findPos (update_balance c6db 7 c).positions 1 7 .yes = none := by
    intro c
    rw [update_balance_positions]
    rfl
  have hres : sell_on_submit c6db 50 1 7 .yes 3 5 =
      (.error .positionNotFound,
       update_balance c6db 7
         ((get_lmsr_cost 5 0 - get_lmsr_cost (max 0 (5 - 3)) 0) -
          (get_lmsr_cost 5 0 - get_lmsr_cost (max 0 (5 - 3)) 0) * TRADING_FEE)) := by
    simp only [sell_on_submit, hm]
    rw [if_neg (by simp), if_neg (fun hh => by norm_num at hh)]
    simp only [eq_true (show (3 : ℝ) > 0 by norm_num), if_true]
    rw [if_neg (by norm_num), if_neg (by norm_num)]
    simp only [targetPool, otherPool, hcash, hfind]
  rw [hres]
  refine ⟨rfl, ?_⟩
  rw [balOf_update_balance, if_pos rfl]
  have hfee : TRADING_FEE < 1 := fee_bounds.2
  have hb : balOf c6db 7 = 500 := rfl
  nlinarith

/-! ## Buy operation, from `LMSR_v3.py` lines 320-435 -/

/-- Merge a buy into the positions table (`LMSR_v3.py` lines 392-409):
update the existing `(user, market, side)` row or insert a new one. -/
def recordBuyPos (db : DB) (mid uid : ℕ) (s : Side) (shares amt : ℝ) : DB :=
  match findPos db.positions mid uid s with
  | some _ =>
    { db with positions := updateFirstPos db.positions mid uid s (fun p =>
        { p with shares := p.shares + shares, totalSpent := p.totalSpent + amt }) }
  | none => { db with positions := db.positions ++ [⟨mid, uid, s, shares, amt⟩] }

/-- `BuyModal.on_submit` (`LMSR_v3.py` lines 333-428).  `amount` is the
parsed integer stake.  Note that the balance check calls
`get_balance`, which lazily creates the user row. -/
noncomputable def buy_on_submit (db : DB) (now : ℤ) (mid uid : ℕ) (side : Side)
    (amount : ℤ) : Except Err Unit × DB :=
  if amount ≤ 0 then (.error .invalidAmount, db)
  else
    let bal_db := get_balance db uid
    if bal_db.1 < (amount : ℝ) then (.error .insufficientFunds, bal_db.2)
    else
      match bal_db.2.markets mid with
      | none => (.error .marketNotFound, bal_db.2)
      | some m =>
        if m.status ≠ .active then (.error .marketClosedErr, bal_db.2)
        else if m.closesAt < now then (.error .marketExpired, bal_db.2)
        else
          let so := calculate_shares_out_lmsr (targetPool m side) (otherPool m side)
            (amount : ℝ)
          if so.1 ≤ 0 then (.error .amountTooSmall, bal_db.2)
          else
            let fee_val := (amount : ℝ) - so.2
            let db2 := update_balance bal_db.2 uid (-(amount : ℝ))
            let new_yes := match side with
              | .yes => m.poolYes + so.1
              | .no => m.poolYes
            let new_no := match side with
              | .yes => m.poolNo
              | .no => m.poolNo + so.1
            let db3 := setMarket db2 mid
              { m with
                poolYes := new_yes
                poolNo := new_no
                feeCollected := m.feeCollected + fee_val }
            let db4 := recordBuyPos db3 mid uid side so.1 (amount : ℝ)
            (.ok (), { db4 with priceHistory :=
              db4.priceHistory ++ [⟨mid, get_prob new_yes new_no, now⟩] })

/-- Databases that agree on every reported balance and on the markets,
positions and price history.  Lazy account creation at the default
balance relates a database to itself under this relation. -/
def econEq (db db' : DB) : Prop :=
  (∀ u, balOf db' u = balOf db u) ∧ db'.markets = db.markets ∧
    db'.positions = db.positions ∧ db'.priceHistory = db.priceHistory

lemma econEq_refl (db : DB) : econEq db db := ⟨fun _ => rfl, rfl, rfl, rfl⟩

lemma econEq_get_balance (db : DB) (v : ℕ) : econEq db (get_balance db v).2 :=
  ⟨fun u => balOf_get_balance db v u, get_balance_markets db v,
    get_balance_positions db v, get_balance_priceHistory db v⟩

/-- Claim C7: a non-positive logarithm argument makes the buy inversion
return its zero-share fallback `(0, net)` (so the trade is rejected),
and every buy whose computed `sharesOut` is `≤ 0` ends in an error with
no change to balances, markets, positions or price history. -/
theorem claim_C7_buy_guards :
    (∀ qT qO a : ℝ,
      Real.exp ((get_lmsr_cost qT qO + a * (1 - TRADING_FEE)) / LMSR_B) -
          Real.exp (qO / LMSR_B) ≤ 0 →
      calculate_shares_out_lmsr qT qO a = (0, a * (1 - TRADING_FEE))) ∧
    (∀ (db : DB) (now : ℤ) (mid uid : ℕ) (side : Side) (amount : ℤ) (m : Market),
      db.markets mid = some m →
      (calculate_shares_out_lmsr (targetPool m side) (otherPool m side)
        (amount : ℝ)).1 ≤ 0 →
      (∃ e, (buy_on_submit db now mid uid side amount).1 = .error e) ∧
      econEq db (buy_on_submit db now mid uid side amount).2) := by
  constructor
  · intro qT qO a h
    simp only [calculate_shares_out_lmsr]
    rw [if_pos h]
  · intro db now mid uid side amount m hm hsh
    by_cases h0 : amount ≤ 0
    · refine ⟨⟨.invalidAmount, ?_⟩, ?_⟩
      · simp only [buy_on_submit, if_pos h0]
      · simp only [buy_on_submit, if_pos h0]
        exact econEq_refl db
    · have hmm : (get_balance db uid).2.markets mid = some m := by
        rw [get_balance_markets]
        exact hm
      by_cases h1 : (get_balance db uid).1 < (amount : ℝ)
      · refine ⟨⟨.insufficientFunds, ?_⟩, ?_⟩
        · simp only [buy_on_submit, if_neg h0, if_pos h1]
        · simp only [buy_on_submit, if_neg h0, if_pos h1]
          exact econEq_get_balance db uid
      · by_cases h2 : m.status ≠ .active
        · refine ⟨⟨.marketClosedErr, ?_⟩, ?_⟩
          · simp only [buy_on_submit, if_neg h0, if_neg h1, hmm, if_pos h2]
          · simp only [buy_on_submit, if_neg h0, if_neg h1, hmm, if_pos h2]
            exact econEq_get_balance db uid
        · by_cases h3 : m.closesAt < now
          · refine ⟨⟨.marketExpired, ?_⟩, ?_⟩
            · simp only [buy_on_submit, if_neg h0, if_neg h1, hmm, if_neg h2, if_pos h3]
            · simp only [buy_on_submit, if_neg h0, if_neg h1, hmm, if_neg h2, if_pos h3]
              exact econEq_get_balance db uid
          · refine ⟨⟨.amountTooSmall, ?_⟩, ?_⟩
            · simp only [buy_on_submit, if_neg h0, if_neg h1, hmm, if_neg h2,
                if_neg h3, if_pos hsh]
            · simp only [buy_on_submit, if_neg h0, if_neg h1, hmm, if_neg h2,
                if_neg h3, if_pos hsh]
              exact econEq_get_balance db uid

/-- Witness for C7: at pools `(0,0)` a stake of `-10000` makes the
logarithm argument non-positive, the inversion returns the zero-share
fallback, and the buy fails with no state change. -/
noncomputable def c7mkt : Market :=
  { question := "q", creatorId := 9, createdAt := 0, closesAt := 100,
    status := .active, result := none, poolYes := 0, poolNo := 0,
    feeCollected := 0 }

noncomputable def c7db : DB :=
  { users := fun u => if u = 9 then some ⟨800, none, none⟩ else none,
    markets := fun i => if i = 1 then some c7mkt else none,
    positions := [],
    priceHistory := [] }

theorem claim_C7_witness :
    Real.exp ((get_lmsr_cost 0 0 + (-10000) * (1 - TRADING_FEE)) / LMSR_B) -
        Real.exp ((0 : ℝ) / LMSR_B) ≤ 0 ∧
    calculate_shares_out_lmsr 0 0 (-10000) = (0, (-10000) * (1 - TRADING_FEE)) ∧
    (∃ e, (buy_on_submit c7db 0 1 9 .yes (-10000)).1 = .error e) ∧
    econEq c7db (buy_on_submit c7db 0 1 9 .yes (-10000)).2 := by
  obtain ⟨h1, h2⟩ := claim_C7_buy_guards
  have hcost : get_lmsr_cost 0 0 = LMSR_B * Real.log 2 := by
    rw [get_lmsr_cost_eq]
    norm_num [Real.exp_zero]
  have hlog2 : Real.log 2 ≤ 1 := by
    have := Real.log_le_sub_one_of_pos (show (0:ℝ) < 2 by norm_num)
    linarith
  have hlog2n : 0 ≤ Real.log 2 := Real.log_nonneg (by norm_num)
  have hx : (get_lmsr_cost 0 0 + (-10000) * (1 - TRADING_FEE)) / LMSR_B ≤ 0 := by
    rw [hcost]
    rw [show LMSR_B = (300:ℝ) from rfl, show TRADING_FEE = (0.05:ℝ) from rfl]
    have : (300:ℝ) * Real.log 2 ≤ 300 := by nlinarith
    have hnum : (300:ℝ) * Real.log 2 + (-10000) * (1 - 0.05) ≤ 0 := by nlinarith
    have h300 : (0:ℝ) < 300 := by norm_num
    exact div_nonpos_of_nonpos_of_nonneg hnum h300.le
  have hinner : Real.exp ((get_lmsr_cost 0 0 + (-10000) * (1 - TRADING_FEE)) / LMSR_B) -
      Real.exp ((0 : ℝ) / LMSR_B) ≤ 0 := by
    have he : Real.exp ((get_lmsr_cost 0 0 + (-10000) * (1 - TRADING_FEE)) / LMSR_B) ≤
        Real.exp 0 := Real.exp_le_exp.mpr hx
    rw [Real.exp_zero] at he
    rw [show ((0:ℝ) / LMSR_B) = 0 by norm_num, Real.exp_zero]
    linarith
  have hcalc := h1 0 0 (-10000) hinner
  have hsh : (calculate_shares_out_lmsr (targetPool c7mkt .yes)
      (otherPool c7mkt .yes) (((-10000 : ℤ) : ℝ))).1 ≤ 0 := by
    show (calculate_shares_out_lmsr 0 0 (((-10000 : ℤ) : ℝ))).1 ≤ 0
    rw [show (((-10000 : ℤ) : ℝ)) = (-10000 : ℝ) by push_cast; ring, hcalc]
  have h2' := h2 c7db 0 1 9 .yes (-10000) c7mkt rfl hsh
  exact ⟨hinner, hcalc, h2'.1, h2'.2⟩

/-! ## Proposal rejection, from `LMSR_v3.py` lines 835-846 -/

@[simp] lemma setUser_markets (db : DB) (uid : ℕ) (r : UserRow) :
    (setUser db uid r).markets = db.markets := rfl

@[simp] lemma setUser_positions (db : DB) (uid : ℕ) (r : UserRow) :
    (setUser db uid r).positions = db.positions := rfl

@[simp] lemma setUser_priceHistory (db : DB) (uid : ℕ) (r : UserRow) :
    (setUser db uid r).priceHistory = db.priceHistory := rfl

lemma balOf_setUser_self (db : DB) (uid : ℕ) (r : UserRow) :
    balOf (setUser db uid r) uid = r.balance := by
  unfold balOf setUser
  simp

/-- `ApprovalView.deny`: unconditionally marks the market `rejected`
and refunds `amount` to the creator, both via raw `UPDATE` statements
(each a no-op when its row is missing).  There is no status check. -/
noncomputable def approval_deny (db : DB) (mid creator : ℕ) (amount : ℝ) : DB :=
  let db1 := match db.markets mid with
    | some m => setMarket db mid { m with status := .rejected }
    | none => db
  match db1.users creator with
  | some r => setUser db1 creator { r with balance := r.balance + amount }
  | none => db1

noncomputable def c8mkt : Market :=
  { question := "q", creatorId := 7, createdAt := 0, closesAt := 100,
    status := .active, result := none, poolYes := 0, poolNo := 0,
    feeCollected := 0 }

noncomputable def c8db : DB :=
  { users := fun u => if u = 7 then some ⟨500, none, none⟩ else none,
    markets := fun i => if i = 1 then some c8mkt else none,
    positions := [],
    priceHistory := [] }

/-- Counterexample to C8 as stated: rejecting a market that is already
`active` (not pending) raises no error — the market record is flipped
to `rejected` and the refund is credited anyway. -/
theorem claim_C8_counterexample :
    mstatus (approval_deny c8db 1 7 100) 1 = some .rejected ∧
    balOf (approval_deny c8db 1 7 100) 7 = 600 ∧
    mstatus c8db 1 = some .active := by
  have hm : c8db.markets 1 = some c8mkt := rfl
  have hu : (setMarket c8db 1 { c8mkt with status := .rejected }).users 7 =
      some ⟨500, none, none⟩ := rfl
  have hstep : approval_deny c8db 1 7 100 =
      setUser (setMarket c8db 1 { c8mkt with status := .rejected }) 7
        ⟨500 + 100, none, none⟩ := by
    simp only [approval_deny, hm, hu]
  rw [hstep]
  refine ⟨?_, ?_, rfl⟩
  · show ((setUser _ 7 _).markets 1).map (·.status) = some Status.rejected
    rw [setUser_markets]
    simp
  · rw [balOf_setUser_self]
    norm_num

/-- Claim C8 (amended): `deny` performs no status check — for any
existing market, whatever its status, it sets the status to `rejected`
and credits the refund to the creator's existing account.  A pending
market is thus rejected and refunded exactly once per invocation, but
an already-processed market is rejected and refunded again instead of
producing an AlreadyProcessed error. -/
theorem claim_C8_amended (db : DB) (mid creator : ℕ) (amount : ℝ)
    (m : Market) (r : UserRow) (hm : db.markets mid = some m)
    (hr : db.users creator = some r) :
    mstatus (approval_deny db mid creator amount) mid = some .rejected ∧
    balOf (approval_deny db mid creator amount) creator = r.balance + amount := by
  have hu : (setMarket db mid { m with status := .rejected }).users creator =
      some r := hr
  have hstep : approval_deny db mid creator amount =
      setUser (setMarket db mid { m with status := .rejected }) creator
        { r with balance := r.balance + amount } := by
    simp only [approval_deny, hm, hu]
  rw [hstep]
  constructor
  · show ((setUser _ creator _).markets mid).map (·.status) = some Status.rejected
    rw [setUser_markets]
    simp
  · rw [balOf_setUser_self]

/-- Witness for the amended C8: a pending market is rejected and the
proposal cost refunded. -/
noncomputable def c8mkt2 : Market :=
  { question := "q", creatorId := 7, createdAt := 0, closesAt := 100,
    status := .pending, result := none, poolYes := 0, poolNo := 0,
    feeCollected := 0 }

noncomputable def c8db2 : DB :=
  { users := fun u => if u = 7 then some ⟨500, none, none⟩ else none,
    markets := fun i => if i = 1 then some c8mkt2 else none,
    positions := [],
    priceHistory := [] }

theorem claim_C8_witness :
    mstatus (approval_deny c8db2 1 7 100) 1 = some .rejected ∧
    balOf (approval_deny c8db2 1 7 100) 7 = 500 + 100 :=
  claim_C8_amended c8db2 1 7 100 c8mkt2 ⟨500, none, none⟩ rfl rfl

/-! ## Market proposal, from `LMSR_v3.py` lines 583-670 -/

/-- Duration bounds and proposal cooldown (`config.py` `TimeConfig`),
in the same ticks as timestamps; `unitDelta` is the tick length of one
duration unit. -/
structure TimeCfg where
  minDuration : ℤ
  maxDuration : ℤ
  cooldown : ℤ
  unitDelta : ℤ

/-- Production settings: durations of 6-168 hours, 4-hour cooldown. -/
def prodTimeCfg : TimeCfg :=
  { minDuration := 6, maxDuration := 168, cooldown := 4, unitDelta := 1 }

/-- The `last_prop and now - last_prop < timedelta(...)` test. -/
def cooldown_active (last_prop : Option ℤ) (now cooldown : ℤ) : Prop :=
  match last_prop with
  | some t => now - t < cooldown
  | none => False

instance (lp : Option ℤ) (now cd : ℤ) : Decidable (cooldown_active lp now cd) :=
  match lp with
  | some t => inferInstanceAs (Decidable (now - t < cd))
  | none => inferInstanceAs (Decidable False)

/-- `ProposeModal.on_submit`: duration, cooldown and balance checks for
non-privileged creators; the debit is a raw `UPDATE users` (a no-op
when the creator has no row); the market is inserted as `pending` with
both pools at `0` and an initial 50% price-history point. -/
noncomputable def propose_on_submit (cfg : TimeCfg) (db : DB) (now : ℤ) (uid : ℕ)
    (isVip : Bool) (duration : ℤ) (newMid : ℕ) (question : String) :
    Except Err ℕ × DB :=
  let res := db.users uid
  let balance := match res with
    | some r => r.balance
    | none => STARTING_BALANCE
  let last_prop : Option ℤ := match res with
    | some r => r.lastProposal
    | none => none
  if isVip = false ∧ (duration < cfg.minDuration ∨ duration > cfg.maxDuration) then
    (.error .durationOutOfRange, db)
  else if isVip = false ∧ cooldown_active last_prop now cfg.cooldown then
    (.error .cooldownActive, db)
  else if isVip = false ∧ balance < PROPOSAL_COST then
    (.error .insufficientFunds, db)
  else
    let cost : ℝ := if isVip then 0 else PROPOSAL_COST
    let db1 :=
      if isVip then db
      else match db.users uid with
        | some r => setUser db uid
            { r with balance := r.balance - cost, lastProposal := some now }
        | none => db
    let closes := now + duration * cfg.unitDelta
    let db2 := setMarket db1 newMid
      { question := question, creatorId := uid, createdAt := now, closesAt := closes,
        status := .pending, result := none, poolYes := 0, poolNo := 0,
        feeCollected := 0 }
    (.ok newMid, { db2 with priceHistory := db2.priceHistory ++ [⟨newMid, 0.5, now⟩] })

noncomputable def c9db : DB :=
  { users := fun _ => none,
    markets := fun _ => none,
    positions := [],
    priceHistory := [] }

/-- Counterexample to C9 as stated: a first-time non-privileged creator
(no `users` row) passes the duration, cooldown and balance checks (the
balance defaults to the starting balance), yet the raw `UPDATE` debits
no row — the proposal succeeds and the creator's balance is unchanged
instead of decreasing by the proposal cost. -/
theorem claim_C9_counterexample :
    (propose_on_submit prodTimeCfg c9db 1000 7 false 48 1 "q").1 = .ok 1 ∧
    balOf (propose_on_submit prodTimeCfg c9db 1000 7 false 48 1 "q").2 7 =
      balOf c9db 7 ∧
    mstatus (propose_on_submit prodTimeCfg c9db 1000 7 false 48 1 "q").2 1 =
      some .pending := by
  have hres : c9db.users 7 = none := rfl
  have h1 : ¬((48:ℤ) < prodTimeCfg.minDuration ∨
      (48:ℤ) > prodTimeCfg.maxDuration) := by
    simp [prodTimeCfg]
  have h2 : ¬ cooldown_active none 1000 prodTimeCfg.cooldown := by
    simp [cooldown_active]
  have h3 : ¬ STARTING_BALANCE < PROPOSAL_COST := by
    norm_num [STARTING_BALANCE, PROPOSAL_COST]
  have hstep : propose_on_submit prodTimeCfg c9db 1000 7 false 48 1 "q" =
      (.ok 1,
       { setMarket c9db 1
           { question := "q", creatorId := 7, createdAt := 1000,
             closesAt := 1000 + 48 * prodTimeCfg.unitDelta, status := .pending,
             result := none, poolYes := 0, poolNo := 0, feeCollected := 0 } with
         priceHistory := c9db.priceHistory ++ [⟨1, 0.5, 1000⟩] }) := by
    simp only [propose_on_submit, hres, true_and, if_neg h1, if_neg h2, if_neg h3,
      Bool.false_eq_true, if_false, setMarket_priceHistory]
  rw [hstep]
  refine ⟨rfl, rfl, ?_⟩
  show ((setMarket c9db 1 _).markets 1).map (·.status) = some Status.pending
  simp

/-- Claim C9 (amended): a non-privileged creator with an existing
`users` row who passes the duration, cooldown and balance checks is
debited exactly the proposal cost and a `pending` market with
`qYes = qNo = 0` is created; a privileged creator's `users` table is
untouched.  A creator with no `users` row passes the balance check at
the default balance but is charged nothing (see the counterexample). -/
theorem claim_C9_amended (cfg : TimeCfg) (db : DB) (now : ℤ) (uid : ℕ)
    (duration : ℤ) (newMid : ℕ) (q : String) (r : UserRow)
    (hr : db.users uid = some r)
    (hdur : ¬(duration < cfg.minDuration ∨ duration > cfg.maxDuration))
    (hcool : ¬ cooldown_active r.lastProposal now cfg.cooldown)
    (hbal : ¬ r.balance < PROPOSAL_COST) :
    (propose_on_submit cfg db now uid false duration newMid q).1 = .ok newMid ∧
    balOf (propose_on_submit cfg db now uid false duration newMid q).2 uid =
      r.balance - PROPOSAL_COST ∧
    mstatus (propose_on_submit cfg db now uid false duration newMid q).2 newMid =
      some .pending ∧
    ((propose_on_submit cfg db now uid false duration newMid q).2.markets newMid).map
      (fun mm => (mm.poolYes, mm.poolNo)) = some (0, 0) ∧
    (∀ (db' : DB) (uid' : ℕ),
      (propose_on_submit cfg db' now uid' true duration newMid q).1 = .ok newMid ∧
      (propose_on_submit cfg db' now uid' true duration newMid q).2.users = db'.users) := by
  have hstep : propose_on_submit cfg db now uid false duration newMid q =
      (.ok newMid,
       { setMarket (setUser db uid
           { r with balance := r.balance - PROPOSAL_COST, lastProposal := some now })
           newMid
           { question := q, creatorId := uid, createdAt := now,
             closesAt := now + duration * cfg.unitDelta, status := .pending,
             result := none, poolYes := 0, poolNo := 0, feeCollected := 0 } with
         priceHistory := db.priceHistory ++ [⟨newMid, 0.5, now⟩] }) := by
    simp only [propose_on_submit, hr, true_and, if_neg hdur, if_neg hcool,
      if_neg hbal, Bool.false_eq_true, if_false, setMarket_priceHistory,
      setUser_priceHistory]
  refine ⟨by rw [hstep], ?_, ?_, ?_, ?_⟩
  · rw [hstep]
    simp [balOf, setMarket, setUser]
  · rw [hstep]
    simp [mstatus, setMarket]
  · rw [hstep]
    simp [setMarket]
  · intro db' uid'
    constructor
    · simp only [propose_on_submit, Bool.true_eq_false, false_and, if_false, if_true]
    · simp only [propose_on_submit, Bool.true_eq_false, false_and, if_false, if_true]
      rfl

/-- Witness for the amended C9 on a concrete database. -/
noncomputable def c9db2 : DB :=
  { users := fun u => if u = 7 then some ⟨400, none, none⟩ else none,
    markets := fun _ => none,
    positions := [],
    priceHistory := [] }

theorem claim_C9_witness :
    (propose_on_submit prodTimeCfg c9db2 1000 7 false 48 1 "q").1 = .ok 1 ∧
    balOf (propose_on_submit prodTimeCfg c9db2 1000 7 false 48 1 "q").2 7 =
      400 - PROPOSAL_COST := by
  have h := claim_C9_amended prodTimeCfg c9db2 1000 7 48 1 "q" ⟨400, none, none⟩
    rfl (by norm_num [prodTimeCfg]) (by simp [cooldown_active])
    (by norm_num [PROPOSAL_COST])
  exact ⟨h.1, h.2.1⟩

end PM
